/-
Verification of the kenchi outlier-detection core (angle_based.py,
distance_based.py) against its natural-language specification.

The scoring engines are shallowly embedded over exact rational arithmetic:
feature vectors are `List ℚ`, matrices are `List (List ℚ)`, numpy's
floating-point operations become the corresponding exact operations, and
Python exceptions become `Except` values of an explicit error type.
-/
import Mathlib

set_option allowUnsafeReducibility true in
attribute [semireducible] Rat.mul Rat.inv Rat.add Rat.sub Rat.div

set_option maxRecDepth 40000

namespace Kenchi

/-- A feature vector: one row of a data matrix. -/
abbrev Vec := List ℚ

/-- A data matrix: an ordered list of feature vectors. -/
abbrev Mat := List (List ℚ)

/-- The error taxonomy of the library, as surfaced to callers:
`notFitted` models sklearn's `NotFittedError` (raised by `check_is_fitted`
and by querying an unfitted `NearestNeighbors` index), `valueError msg`
models Python's `ValueError` with its message, and `notImplemented` models
Python's `NotImplementedError`. -/
inductive KError
  | notFitted
  | valueError (msg : String)
  | notImplemented
deriving DecidableEq, Repr

instance {ε α : Type} [DecidableEq ε] [DecidableEq α] : DecidableEq (Except ε α)
  | .error a, .error b =>
    if h : a = b then .isTrue (by rw [h]) else .isFalse (by simp [h])
  | .error _, .ok _ => .isFalse (by simp)
  | .ok _, .error _ => .isFalse (by simp)
  | .ok a, .ok b =>
    if h : a = b then .isTrue (by rw [h]) else .isFalse (by simp [h])

/-- Dot product `x @ y` of numpy; trailing entries of the longer vector are
irrelevant for the rows of a fixed-dimension matrix. -/
def dot (x y : Vec) : ℚ := (List.zipWith (· * ·) x y).sum

/-- Pointwise vector difference `x - y` of numpy. -/
def vsub (x y : Vec) : Vec := List.zipWith (· - ·) x y

/-- Squared euclidean distance.  The default minkowski (p = 2) metric of
`NearestNeighbors` induces exactly this neighbor ordering, and it is also a
valid concrete callable metric for the `KNN` engine. -/
def sqdist (x y : Vec) : ℚ := dot (vsub x y) (vsub x y)

/-- `np.sum` over one row. -/
def listSum (l : List ℚ) : ℚ := l.sum

/-- `np.max` over one (nonempty) row. -/
def listMax : List ℚ → ℚ
  | [] => 0
  | a :: t => t.foldl max a

/-- `np.min` over one (nonempty) row. -/
def listMin : List ℚ → ℚ
  | [] => 0
  | a :: t => t.foldl min a

/-- Ascending sort on rationals. -/
def sortQ (l : List ℚ) : List ℚ := l.insertionSort (· ≤ ·)

/-- `np.percentile(scores, q)` with the default linear-interpolation method:
the value at fractional position `q / 100 * (n - 1)` of the ascending order
statistics. -/
def percentile (scores : List ℚ) (q : ℚ) : ℚ :=
  let s := sortQ scores
  let n := s.length
  let pos : ℚ := q / 100 * ((n : ℚ) - 1)
  let i : ℕ := (Rat.floor pos).toNat
  let frac : ℚ := pos - (i : ℚ)
  s.getD i 0 + frac * (s.getD (min (i + 1) (n - 1)) 0 - s.getD i 0)

/-- `itertools.combinations(l, 2)`: every distinct unordered pair, each taken
in list order. -/
def pairsOf {α : Type} : List α → List (α × α)
  | [] => []
  | a :: t => t.map (fun b => (a, b)) ++ pairsOf t

/-- Arithmetic mean of a list (`np.mean`). -/
def mean (l : List ℚ) : ℚ := l.sum / (l.length : ℚ)

/-- Population variance of a list (`np.var`): mean squared deviation from the
mean. -/
def popVar (l : List ℚ) : ℚ :=
  ((l.map (fun x => (x - mean l) ^ 2)).sum) / (l.length : ℚ)

/-- Neighbor ordering used by the nearest-neighbor index: by distance, ties
broken by index, which makes the query deterministic. -/
def byDistIdx (a b : ℚ × ℕ) : Prop := a.1 < b.1 ∨ (a.1 = b.1 ∧ a.2 ≤ b.2)

instance : DecidableRel byDistIdx := fun a b => by
  unfold byDistIdx; infer_instance

/-- `NearestNeighbors.kneighbors(q, return_distance=False)`: indices of the
`k` training rows closest to the query point `q`. -/
def kneighborsInd (Xtr : Mat) (q : Vec) (k : ℕ) : List ℕ :=
  ((((List.range Xtr.length).map
      (fun j => (sqdist q (Xtr.getD j []), j))).insertionSort byDistIdx).take k).map
    (fun a => a.2)

/-- `NearestNeighbors.kneighbors()` (no argument) for training row `i`: the
index is queried on the training set itself and the row's own index is
excluded from its neighbor pool. -/
def kneighborsIndSelf (Xtr : Mat) (i k : ℕ) : List ℕ :=
  (((((List.range Xtr.length).filter (fun j => j != i)).map
      (fun j => (sqdist (Xtr.getD i []) (Xtr.getD j []), j))).insertionSort byDistIdx).take k).map
    (fun a => a.2)

/-- Whether a slice computation raised (`joblib.Parallel` propagates any
worker exception). -/
def isErrB {α : Type} : Except Unit α → Bool
  | .error _ => true
  | .ok _ => false

/-- The value of a successful slice computation (only read when no slice
raised). -/
def okval : Except Unit (List ℚ) → List ℚ
  | .error _ => []
  | .ok v => v

/-- `sklearn.utils.gen_even_slices(n, n_packs)`, recursion worker: emits the
`(start, length)` pairs of the remaining packs, skipping empty ones. -/
def gesGo (n npacks : ℕ) : ℕ → ℕ → ℕ → List (ℕ × ℕ)
  | 0, _, _ => []
  | fuel + 1, packNum, start =>
    let t := n / npacks + (if packNum < n % npacks then 1 else 0)
    if t = 0 then gesGo n npacks fuel (packNum + 1) start
    else (start, t) :: gesGo n npacks fuel (packNum + 1) (start + t)

/-- `sklearn.utils.gen_even_slices(n, n_packs)`: contiguous, near-equal-size
`(start, length)` slices of `range n`, one per pack, empty packs skipped. -/
def genEvenSlices (n npacks : ℕ) : List (ℕ × ℕ) := gesGo n npacks npacks 0 0

namespace FastABOD

/-- Configuration of `FastABOD`: the false positive rate `fpr`, the
parallelism degree `n_jobs`, and the neighbor count passed through to the
underlying `NearestNeighbors` index. -/
structure Cfg where
  fpr : ℚ
  n_jobs : ℕ
  n_neighbors : ℕ

/-- `FastABOD.check_params`, run by `__init__`. -/
def check_params (cfg : Cfg) : Except KError Unit :=
  if cfg.fpr < 0 ∨ 1 < cfg.fpr then
    .error (.valueError
      ("fpr must be between 0.0 and 1.0 inclusive but was " ++ toString cfg.fpr.num))
  else .ok ()

/-- The difference vectors `X_train[ind_p] - p` of `_abof`'s inner loop. -/
def diffsOf (Xtr : Mat) (p : Vec) (indp : List ℕ) : List Vec :=
  indp.map (fun i => vsub (Xtr.getD i []) p)

/-- The list `[(pa @ pb) / (pa @ pa) / (pb @ pb) for pa, pb in
combinations(X_train[ind_p] - p, 2)]` of `_abof`. -/
def abofRatios (Xtr : Mat) (p : Vec) (indp : List ℕ) : List ℚ :=
  (pairsOf (diffsOf Xtr p indp)).map
    (fun ab => dot ab.1 ab.2 / dot ab.1 ab.1 / dot ab.2 ab.2)

/-- Whether `_abof`'s computation for one query row hits an invalid (0 / 0)
floating-point operation under `np.errstate(invalid='raise')`.  Two cases:
the row's pair list is empty (fewer than two selected neighbors, so
`np.var(..., axis=1)` takes the mean of an empty axis, 0.0 / 0), or some
pair divides by the zero squared norm of a zero difference vector. -/
def rowBad (Xtr : Mat) (row : Vec × List ℕ) : Bool :=
  decide (pairsOf (diffsOf Xtr row.1 row.2) = []) ||
  (pairsOf (diffsOf Xtr row.1 row.2)).any
    (fun ab => decide (dot ab.1 ab.1 = 0) || decide (dot ab.2 ab.2 = 0))

/-- The angle-based outlier factor of one query row: the variance of the
pairwise ratio list (`np.var(..., axis=1)` acts row by row). -/
def abofRow (Xtr : Mat) (row : Vec × List ℕ) : ℚ :=
  popVar (abofRatios Xtr row.1 row.2)

/-- `_abof(X_train, X[s], ind[s])` on one slice of rows, each row paired
with its neighbor indices: under `np.errstate(invalid='raise')` the slice
raises `FloatingPointError` (modelled as `.error ()`) as soon as any row's
computation hits an invalid operation — a division by a zero squared norm,
or `np.var`'s empty-axis mean when a row has no ratio pairs — and
otherwise returns the per-row variance of the pairwise ratios. -/
def abofSlice (Xtr : Mat) (chunk : List (Vec × List ℕ)) : Except Unit (List ℚ) :=
  if chunk.any (rowBad Xtr) then .error ()
  else .ok (chunk.map (abofRow Xtr))

/-- The query rows paired with their neighbor indices, as computed at the
top of `FastABOD.anomaly_score`: `ind = self._knn.kneighbors(X)` runs before
`X` defaults to the stored training data, so an omitted `X` uses the
self-excluding neighbor query while an explicit `X` does not. -/
def abodRows (Xtr : Mat) (k : ℕ) : Option Mat → List (Vec × List ℕ)
  | some X => X.map (fun p => (p, kneighborsInd Xtr p k))
  | none => (List.range Xtr.length).map
      (fun i => (Xtr.getD i [], kneighborsIndSelf Xtr i k))

/-- `FastABOD.anomaly_score(X)`.  The fitted state is the training matrix
held by the `NearestNeighbors` index (`None` when `fit` has not run, in
which case the index's neighbor query raises `NotFittedError`).  The rows
are cut by `gen_even_slices(n_samples, n_jobs)`, each slice is scored by
`_abof` independently, a `FloatingPointError` from any slice becomes
`ValueError('X must not contain training samples')`, and otherwise the
slice results are concatenated in slice order and negated. -/
def anomaly_scoreE (cfg : Cfg) (fitted : Option Mat) (X : Option Mat) :
    Except KError (List ℚ) :=
  match fitted with
  | none => .error .notFitted
  | some Xtr =>
    let rows := abodRows Xtr cfg.n_neighbors X
    let slices := genEvenSlices rows.length cfg.n_jobs
    let results := slices.map (fun sl => abofSlice Xtr ((rows.drop sl.1).take sl.2))
    if results.any isErrB then
      .error (.valueError "X must not contain training samples")
    else
      .ok (((results.map okval).flatten).map (fun v => -v))

/-- `FastABOD.fit(X)`: fit the neighbor index on `X`, score the training set
with `X` omitted, and set `threshold_` to the `100 * (1 - fpr)` percentile
of those scores.  The fitted state is the pair `(X_, threshold_)`. -/
def fitE (cfg : Cfg) (X : Mat) : Except KError (Mat × ℚ) :=
  match anomaly_scoreE cfg (some X) none with
  | .error e => .error e
  | .ok s => .ok (X, percentile s (100 * (1 - cfg.fpr)))

/-- Modelled from the spec: the base detector's `predict` (its class is not
part of the sources here) labels a row an outlier exactly when its anomaly
score exceeds `threshold_`, and fails with the not-fitted condition before
a successful `fit`. -/
def predictE (cfg : Cfg) (st : Option (Mat × ℚ)) (X : Option Mat) :
    Except KError (List Bool) :=
  match st with
  | none => .error .notFitted
  | some (Xtr, th) =>
    match anomaly_scoreE cfg (some Xtr) X with
    | .error e => .error e
    | .ok s => .ok (s.map (fun v => decide (th < v)))

/-- `FastABOD.score`: the function body unconditionally raises
`NotImplementedError`, whatever the engine state and arguments are. -/
def scoreE (_st : Option (Mat × ℚ)) (_X : Mat) (_y : Option (List ℚ)) :
    Except KError ℚ :=
  .error .notImplemented

end FastABOD

namespace KNN

/-- `NearestNeighbors.kneighbors(q)` distances: the `k` smallest distances
from the query point `q` to the training rows, ascending, under the
configured metric `m`. -/
def kneighborsDist (m : Vec → Vec → ℚ) (Xtr : Mat) (q : Vec) (k : ℕ) : List ℚ :=
  ((Xtr.map (fun x => m q x)).insertionSort (· ≤ ·)).take k

/-- `NearestNeighbors.kneighbors()` (no argument) distances for training row
`i`: the `k` smallest distances from row `i` to the other training rows —
the row's own index is excluded from its neighbor pool. -/
def kneighborsSelfDist (m : Vec → Vec → ℚ) (Xtr : Mat) (i k : ℕ) : List ℚ :=
  ((((List.range Xtr.length).filter (fun j => j != i)).map
      (fun j => m (Xtr.getD i []) (Xtr.getD j []))).insertionSort (· ≤ ·)).take k

/-- `KNN.anomaly_score(X)`: `check_is_fitted` fails with the not-fitted
condition when `fit` has not run; otherwise, when `X` equals the training
matrix (`np.array_equal`) the self-excluding neighbor query is used, else
the plain one, and each row's score is the sum (`weight=True`) or the
maximum (`weight=False`) of its `k` neighbor distances. -/
def anomaly_scoreE (m : Vec → Vec → ℚ) (k : ℕ) (w : Bool)
    (fitted : Option Mat) (X : Mat) : Except KError (List ℚ) :=
  match fitted with
  | none => .error .notFitted
  | some Xtr =>
    .ok ((if X = Xtr then
        (List.range Xtr.length).map (fun i => kneighborsSelfDist m Xtr i k)
      else X.map (fun q => kneighborsDist m Xtr q k)).map
      (fun l => if w then listSum l else listMax l))

/-- Modelled from the spec: the base detector's `fit` (its class is not part
of the sources here) fits the index, scores the training set and sets
`threshold_` to the `100 * (1 - contamination)` percentile of those scores. -/
def fitE (m : Vec → Vec → ℚ) (k : ℕ) (w : Bool) (contamination : ℚ) (X : Mat) :
    Except KError (Mat × ℚ) :=
  match anomaly_scoreE m k w (some X) X with
  | .error e => .error e
  | .ok s => .ok (X, percentile s (100 * (1 - contamination)))

/-- Modelled from the spec: the base detector's `predict` (its class is not
part of the sources here) labels a row an outlier exactly when its anomaly
score exceeds `threshold_`, and fails with the not-fitted condition before
a successful `fit`. -/
def predictE (m : Vec → Vec → ℚ) (k : ℕ) (w : Bool)
    (st : Option (Mat × ℚ)) (X : Mat) : Except KError (List Bool) :=
  match st with
  | none => .error .notFitted
  | some (Xtr, th) =>
    match anomaly_scoreE m k w (some Xtr) X with
    | .error e => .error e
    | .ok s => .ok (s.map (fun v => decide (th < v)))

end KNN

namespace OTS

/-- Configuration of `OneTimeSampling`: the contamination rate and the
requested sample count (a Python `int`, possibly non-positive). -/
structure Cfg where
  contamination : ℚ
  n_samples : ℤ

/-- The attribute state of a `OneTimeSampling` engine: each fit-derived
attribute is `none` until assigned.  `metric_` stands for the built
`DistanceMetric` object (presence only), `threshold_` for the base class's
fitted threshold. -/
structure State where
  X_ : Option Mat
  sampled_ : Option (List ℕ)
  metric_ : Option Unit
  threshold_ : Option ℚ
deriving DecidableEq, Repr

/-- A freshly constructed, never fitted engine: no fit-derived attribute is
assigned. -/
def empty : State := ⟨none, none, none, none⟩

/-- The anomaly scores of the training set: for each row, the minimum
distance to any sampled row (`np.min(self._metric.pairwise(X, self.X_sampled_),
axis=1)`). -/
def trainScores (m : Vec → Vec → ℚ) (X : Mat) (sampled : List ℕ) : List ℚ :=
  X.map (fun q => listMin ((sampled.map (fun j => X.getD j [])).map (fun r => m q r)))

/-- `OneTimeSampling.fit(X)` as a state transformer, returning the engine
state after the call together with its outcome.  Validation first
(`_check_params`: the base class's contamination check — modelled from the
spec, its class is not part of the sources here — then the positivity check
on `n_samples`); then `_fit` assigns `self.X_ = X`, checks
`n_samples >= n`, draws the sample via the seeded generator `rng`, sorts
it, builds the metric object, and the base class sets `threshold_` from the
training scores. -/
def fitRun (cfg : Cfg) (m : Vec → Vec → ℚ) (rng : ℕ → ℤ → List ℕ)
    (st : State) (X : Mat) : State × Except KError Unit :=
  if cfg.contamination < 0 ∨ 1 < cfg.contamination then
    (st, .error (.valueError "contamination must be between 0.0 and 1.0"))
  else if cfg.n_samples ≤ 0 then
    (st, .error (.valueError
      ("n_samples must be positive but was " ++ toString cfg.n_samples)))
  else if (X.length : ℤ) ≤ cfg.n_samples then
    ({ st with X_ := some X }, .error (.valueError
      ("n_samples must be smaller than " ++ toString X.length
        ++ " but was " ++ toString cfg.n_samples)))
  else
    ({ st with
        X_ := some X
        sampled_ := some ((rng X.length cfg.n_samples).insertionSort (· ≤ ·))
        metric_ := some ()
        threshold_ := some (percentile
          (trainScores m X ((rng X.length cfg.n_samples).insertionSort (· ≤ ·)))
          (100 * (1 - cfg.contamination))) }, .ok ())

/-- `OneTimeSampling.anomaly_score(X)`: `check_is_fitted(self, '_metric')`
fails with the not-fitted condition when the metric object has not been
assigned; otherwise each row scores its minimum distance to the sampled
training rows. -/
def anomaly_scoreE (m : Vec → Vec → ℚ) (st : State) (X : Mat) :
    Except KError (List ℚ) :=
  match st.metric_ with
  | none => .error .notFitted
  | some _ =>
    let Xtr := st.X_.getD []
    let xs := (st.sampled_.getD []).map (fun j => Xtr.getD j [])
    .ok (X.map (fun q => listMin (xs.map (fun r => m q r))))

/-- Modelled from the spec: the base detector's `predict` (its class is not
part of the sources here) labels a row an outlier exactly when its anomaly
score exceeds `threshold_`, and fails with the not-fitted condition before
a successful `fit`. -/
def predictE (m : Vec → Vec → ℚ) (st : State) (X : Mat) :
    Except KError (List Bool) :=
  match st.metric_ with
  | none => .error .notFitted
  | some _ =>
    match anomaly_scoreE m st X with
    | .error e => .error e
    | .ok s => .ok (s.map (fun v => decide (st.threshold_.getD 0 < v)))

end OTS

/-! ### Helper lemmas -/

/-- Total length emitted by `gesGo` from pack `packNum` on, with `fuel`
packs remaining. -/
def sumThis (n npacks : ℕ) : ℕ → ℕ → ℕ
  | 0, _ => 0
  | fuel + 1, packNum =>
    (n / npacks + (if packNum < n % npacks then 1 else 0)) + sumThis n npacks fuel (packNum + 1)

theorem sumThis_eq (n npacks : ℕ) : ∀ fuel packNum : ℕ,
    sumThis n npacks fuel packNum =
      fuel * (n / npacks) + (min (packNum + fuel) (n % npacks) - min packNum (n % npacks)) := by
  intro fuel
  induction fuel with
  | zero => intro p; simp [sumThis]
  | succ f ih =>
    intro p
    rw [sumThis, ih (p + 1)]
    have hmul : (f + 1) * (n / npacks) = f * (n / npacks) + n / npacks := by ring
    rcases Nat.lt_or_ge p (n % npacks) with h | h
    · rw [if_pos h]
      omega
    · rw [if_neg (by omega)]
      omega

theorem sumThis_total (n npacks : ℕ) (h : 1 ≤ npacks) :
    sumThis n npacks npacks 0 = n := by
  rw [sumThis_eq]
  have h2 : n % npacks < npacks := Nat.mod_lt _ h
  have h3 := Nat.div_add_mod n npacks
  omega

theorem gesGo_flatten {α : Type} (n npacks : ℕ) (X : List α) : ∀ fuel packNum start : ℕ,
    ((gesGo n npacks fuel packNum start).map
        (fun sl => (X.drop sl.1).take sl.2)).flatten =
      (X.drop start).take (sumThis n npacks fuel packNum) := by
  intro fuel
  induction fuel with
  | zero => intro p s; simp [gesGo, sumThis]
  | succ f ih =>
    intro p s
    rw [gesGo, sumThis]
    set t := n / npacks + (if p < n % npacks then 1 else 0) with ht
    by_cases h0 : t = 0
    · rw [if_pos h0, ih, h0, Nat.zero_add]
    · rw [if_neg h0]
      simp only [List.map_cons, List.flatten_cons, ih]
      conv_rhs => rw [List.take_add, List.drop_drop]

theorem genEvenSlices_flatten {α : Type} (npacks : ℕ) (h : 1 ≤ npacks) (X : List α) :
    ((genEvenSlices X.length npacks).map (fun sl => (X.drop sl.1).take sl.2)).flatten = X := by
  unfold genEvenSlices
  rw [gesGo_flatten, sumThis_total _ _ h, List.drop_zero, List.take_length]

theorem flatten_any {α : Type} (L : List (List α)) (p : α → Bool) :
    L.flatten.any p = L.any (fun c => c.any p) := by
  induction L with
  | nil => rfl
  | cons c L ih => simp [List.any_append, ih]

theorem dot_self_nonneg (a : Vec) : 0 ≤ dot a a := by
  induction a with
  | nil => simp [dot]
  | cons x t ih =>
    have hd : dot (x :: t) (x :: t) = x * x + dot t t := rfl
    rw [hd]
    exact add_nonneg (mul_self_nonneg x) ih

theorem dot_self_eq_zero_iff (a : Vec) : dot a a = 0 ↔ ∀ x ∈ a, x = 0 := by
  induction a with
  | nil => simp [dot]
  | cons x t ih =>
    have hd : dot (x :: t) (x :: t) = x * x + dot t t := rfl
    rw [hd]
    constructor
    · intro h
      have hx2 : 0 ≤ x * x := mul_self_nonneg x
      have ht2 : 0 ≤ dot t t := dot_self_nonneg t
      have hx : x * x = 0 := by linarith
      have ht : dot t t = 0 := by linarith
      intro y hy
      rcases List.mem_cons.mp hy with rfl | hy
      · exact mul_self_eq_zero.mp hx
      · exact (ih.mp ht) y hy
    · intro h
      have hx : x = 0 := h x (List.mem_cons_self x t)
      have ht : dot t t = 0 := ih.mpr (fun y hy => h y (List.mem_cons_of_mem _ hy))
      rw [hx, ht]
      ring

theorem eq_of_sqdist_zero {x y : Vec} (hl : x.length = y.length)
    (h : sqdist x y = 0) : x = y := by
  induction x generalizing y with
  | nil => cases y with
    | nil => rfl
    | cons b ys => simp at hl
  | cons a xs ih =>
    cases y with
    | nil => simp at hl
    | cons b ys =>
      have hv : vsub (a :: xs) (b :: ys) = (a - b) :: vsub xs ys := rfl
      unfold sqdist at h
      rw [hv] at h
      have hall := (dot_self_eq_zero_iff _).mp h
      have hab : a - b = 0 := hall _ (List.mem_cons_self _ _)
      have hxs : xs = ys := by
        apply ih (by simpa using hl)
        unfold sqdist
        exact (dot_self_eq_zero_iff _).mpr (fun z hz => hall z (List.mem_cons_of_mem _ hz))
      rw [sub_eq_zero] at hab
      rw [hab, hxs]

theorem sqdist_nonneg (x y : Vec) : 0 ≤ sqdist x y := dot_self_nonneg _

theorem le_foldl_max (t : List ℚ) : ∀ a : ℚ, a ≤ t.foldl max a := by
  induction t with
  | nil => intro a; simp
  | cons b t ih =>
    intro a
    have h1 : (b :: t).foldl max a = t.foldl max (max a b) := rfl
    rw [h1]
    exact le_trans (le_max_left a b) (ih (max a b))

theorem listMax_pos {l : List ℚ} (hne : l ≠ []) (h : ∀ v ∈ l, 0 < v) :
    0 < listMax l := by
  cases l with
  | nil => exact absurd rfl hne
  | cons a t =>
    have ha : 0 < a := h a (List.mem_cons_self a t)
    have : a ≤ t.foldl max a := le_foldl_max t a
    have hm : listMax (a :: t) = t.foldl max a := rfl
    rw [hm]
    exact lt_of_lt_of_le ha this

theorem listSum_pos {l : List ℚ} (hne : l ≠ []) (h : ∀ v ∈ l, 0 < v) :
    0 < listSum l := by
  cases l with
  | nil => exact absurd rfl hne
  | cons a t =>
    have hs : listSum (a :: t) = a + t.sum := by simp [listSum]
    rw [hs]
    have ha : 0 < a := h a (List.mem_cons_self a t)
    have ht : 0 ≤ t.sum :=
      List.sum_nonneg (fun y hy => le_of_lt (h y (List.mem_cons_of_mem _ hy)))
    linarith

theorem map_map_fun {α β γ : Type} (l : List α) (f : α → β) (g : β → γ) :
    (l.map f).map g = l.map (fun x => g (f x)) := by
  induction l with
  | nil => rfl
  | cons a t ih => simp [ih]

theorem any_map_fun {α β : Type} (l : List α) (f : α → β) (p : β → Bool) :
    (l.map f).any p = l.any (fun x => p (f x)) := by
  induction l with
  | nil => rfl
  | cons a t ih => simp [ih]

theorem any_congr_mem {α : Type} {l : List α} {p q : α → Bool}
    (h : ∀ a ∈ l, p a = q a) : l.any p = l.any q := by
  induction l with
  | nil => rfl
  | cons a t ih =>
    simp only [List.any_cons, h a (List.mem_cons_self a t),
      ih (fun b hb => h b (List.mem_cons_of_mem _ hb))]

theorem any_chunks {α β : Type} (l : List α) (g : α → List β) (p : β → Bool) :
    l.any (fun x => (g x).any p) = ((l.map g).flatten).any p := by
  induction l with
  | nil => rfl
  | cons a t ih => simp [List.any_append, ih]

theorem flatten_map_chunks {α β γ : Type} (l : List α) (g : α → List β) (f : β → γ) :
    (l.map (fun x => (g x).map f)).flatten = ((l.map g).flatten).map f := by
  induction l with
  | nil => rfl
  | cons a t ih => simp [ih]

theorem isErrB_abofSlice (Xtr : Mat) (c : List (Vec × List ℕ)) :
    isErrB (FastABOD.abofSlice Xtr c) = c.any (FastABOD.rowBad Xtr) := by
  unfold FastABOD.abofSlice
  by_cases h : c.any (FastABOD.rowBad Xtr) <;> simp [h, isErrB]

theorem okval_abofSlice (Xtr : Mat) (c : List (Vec × List ℕ))
    (h : c.any (FastABOD.rowBad Xtr) = false) :
    okval (FastABOD.abofSlice Xtr c) = c.map (FastABOD.abofRow Xtr) := by
  unfold FastABOD.abofSlice
  rw [h]
  simp [okval]

/-- `FastABOD.anomaly_score` on a fitted engine, reduced to its sequential
(slice-free) form: the slicing by `gen_even_slices`, the per-slice `_abof`
computation and the concatenation are equivalent, for every parallelism
degree of at least 1, to scoring the rows directly in order — raising the
domain error exactly when some row's pair list divides by a zero squared
norm. -/
theorem abod_direct (cfg : FastABOD.Cfg) (Xtr : Mat) (X : Option Mat)
    (h : 1 ≤ cfg.n_jobs) :
    FastABOD.anomaly_scoreE cfg (some Xtr) X =
      if (FastABOD.abodRows Xtr cfg.n_neighbors X).any (FastABOD.rowBad Xtr) then
        .error (.valueError "X must not contain training samples")
      else
        .ok ((FastABOD.abodRows Xtr cfg.n_neighbors X).map
          (fun r => -(FastABOD.abofRow Xtr r))) := by
  simp only [FastABOD.anomaly_scoreE]
  set rows := FastABOD.abodRows Xtr cfg.n_neighbors X with hrows
  set sls := genEvenSlices rows.length cfg.n_jobs with hsls
  have hPflat : ((sls.map (fun sl => (rows.drop sl.1).take sl.2))).flatten = rows := by
    rw [hsls]
    exact genEvenSlices_flatten cfg.n_jobs h rows
  have hcond : (sls.map (fun sl => FastABOD.abofSlice Xtr ((rows.drop sl.1).take sl.2))).any
      isErrB = rows.any (FastABOD.rowBad Xtr) := by
    calc (sls.map (fun sl => FastABOD.abofSlice Xtr ((rows.drop sl.1).take sl.2))).any isErrB
        = sls.any (fun sl => isErrB (FastABOD.abofSlice Xtr ((rows.drop sl.1).take sl.2))) :=
          any_map_fun _ _ _
      _ = sls.any (fun sl => ((rows.drop sl.1).take sl.2).any (FastABOD.rowBad Xtr)) :=
          any_congr_mem (fun sl _ => isErrB_abofSlice Xtr _)
      _ = ((sls.map (fun sl => (rows.drop sl.1).take sl.2)).flatten).any (FastABOD.rowBad Xtr) :=
          any_chunks _ _ _
      _ = rows.any (FastABOD.rowBad Xtr) := by rw [hPflat]
  by_cases hb : rows.any (FastABOD.rowBad Xtr)
  · rw [if_pos (by rw [hcond]; exact hb), if_pos hb]
  · rw [if_neg (by rw [hcond]; exact hb), if_neg hb]
    have hchunks : ∀ c ∈ sls.map (fun sl => (rows.drop sl.1).take sl.2),
        c.any (FastABOD.rowBad Xtr) = false := by
      intro c hc
      rw [← Bool.not_eq_true]
      intro hcontra
      have : rows.any (FastABOD.rowBad Xtr) = true := by
        rw [← hPflat, flatten_any]
        exact List.any_eq_true.mpr ⟨c, hc, hcontra⟩
      exact hb this
    have h1 : (sls.map (fun sl => FastABOD.abofSlice Xtr ((rows.drop sl.1).take sl.2))).map okval
        = sls.map (fun sl => ((rows.drop sl.1).take sl.2).map (FastABOD.abofRow Xtr)) := by
      rw [map_map_fun]
      exact List.map_congr_left (fun sl hsl =>
        okval_abofSlice Xtr _ (hchunks _ (List.mem_map_of_mem _ hsl)))
    rw [h1, flatten_map_chunks, hPflat, map_map_fun]

theorem getD_ne_of_nodup {α : Type} [Inhabited α] {l : List α} (h : l.Nodup)
    {i j : ℕ} (hi : i < l.length) (hj : j < l.length) (hij : i ≠ j) (d : α) :
    l.getD i d ≠ l.getD j d := by
  rw [List.getD_eq_getElem _ _ hi, List.getD_eq_getElem _ _ hj]
  intro he
  have h2 : l.get ⟨i, hi⟩ = l.get ⟨j, hj⟩ := by
    simpa [List.get_eq_getElem] using he
  have := (h.get_inj_iff).mp h2
  exact hij (by simpa using congrArg Fin.val this)

theorem getD_mem {α : Type} {l : List α} {i : ℕ} (hi : i < l.length) (d : α) :
    l.getD i d ∈ l := by
  rw [List.getD_eq_getElem _ _ hi]
  exact List.getElem_mem hi

theorem pairsOf_mem {α : Type} {l : List α} {ab : α × α} (h : ab ∈ pairsOf l) :
    ab.1 ∈ l ∧ ab.2 ∈ l := by
  induction l with
  | nil => cases h
  | cons a t ih =>
    simp only [pairsOf, List.mem_append] at h
    rcases h with h | h
    · obtain ⟨b, hb, rfl⟩ := List.mem_map.mp h
      exact ⟨List.mem_cons_self _ _, List.mem_cons_of_mem _ hb⟩
    · obtain ⟨h1, h2⟩ := ih h
      exact ⟨List.mem_cons_of_mem _ h1, List.mem_cons_of_mem _ h2⟩

theorem mem_kneighborsIndSelf {Xtr : Mat} {i k j : ℕ}
    (h : j ∈ kneighborsIndSelf Xtr i k) : j < Xtr.length ∧ j ≠ i := by
  unfold kneighborsIndSelf at h
  obtain ⟨a, ha, haj⟩ := List.mem_map.mp h
  have ha2 := List.take_subset _ _ ha
  have ha3 : a ∈ ((List.range Xtr.length).filter (fun j => j != i)).map
      (fun j => (sqdist (Xtr.getD i []) (Xtr.getD j []), j)) :=
    (List.perm_insertionSort byDistIdx _).mem_iff.mp ha2
  obtain ⟨j0, hj0, hje⟩ := List.mem_map.mp ha3
  have hj1 := List.mem_filter.mp hj0
  have hlt : j0 < Xtr.length := List.mem_range.mp hj1.1
  have hne : j0 ≠ i := by simpa using hj1.2
  subst hje
  simp only at haj
  subst haj
  exact ⟨hlt, hne⟩

theorem length_filter_ne (n i : ℕ) (hi : i < n) :
    ((List.range n).filter (fun j => j != i)).length = n - 1 := by
  induction n with
  | zero => omega
  | succ m ih =>
    rw [List.range_succ, List.filter_append, List.length_append]
    by_cases him : i < m
    · rw [ih him]
      have hne : (m != i) = true := by
        simp only [bne_iff_ne]
        omega
      simp only [List.filter, hne, List.length_cons, List.length_nil]
      omega
    · have him2 : i = m := by omega
      subst him2
      have h1 : (List.range i).filter (fun j => j != i) = List.range i := by
        apply List.filter_eq_self.mpr
        intro a ha
        have := List.mem_range.mp ha
        simp only [bne_iff_ne]
        omega
      have h2 : ([i].filter (fun j => j != i)) = [] := by simp
      rw [h1, h2]
      simp

theorem kneighborsIndSelf_length (Xtr : Mat) (i k : ℕ) (hi : i < Xtr.length) :
    (kneighborsIndSelf Xtr i k).length = min k (Xtr.length - 1) := by
  unfold kneighborsIndSelf
  rw [List.length_map, List.length_take, List.length_insertionSort,
    List.length_map, length_filter_ne _ _ hi]

theorem pairsOf_ne_nil {α : Type} {l : List α} (h : 2 ≤ l.length) :
    pairsOf l ≠ [] := by
  cases l with
  | nil => simp at h
  | cons a t =>
    cases t with
    | nil => simp at h
    | cons b t2 => simp [pairsOf]

theorem rowBad_eq_true_iff (Xtr : Mat) (row : Vec × List ℕ) :
    FastABOD.rowBad Xtr row = true ↔
      pairsOf (FastABOD.diffsOf Xtr row.1 row.2) = [] ∨
      ∃ ab ∈ pairsOf (FastABOD.diffsOf Xtr row.1 row.2),
        dot ab.1 ab.1 = 0 ∨ dot ab.2 ab.2 = 0 := by
  unfold FastABOD.rowBad
  simp [List.any_eq_true]

theorem rowBad_self_false {Xtr : Mat} {d : ℕ} (hnd : Xtr.Nodup)
    (hlen : ∀ r ∈ Xtr, r.length = d) {i k : ℕ} (hi : i < Xtr.length)
    (hk2 : 2 ≤ k) (hkn : k ≤ Xtr.length - 1) :
    FastABOD.rowBad Xtr (Xtr.getD i [], kneighborsIndSelf Xtr i k) = false := by
  have key : ∀ a ∈ FastABOD.diffsOf Xtr (Xtr.getD i []) (kneighborsIndSelf Xtr i k),
      dot a a ≠ 0 := by
    intro a hma
    obtain ⟨j, hj, rfl⟩ := List.mem_map.mp hma
    obtain ⟨hjlt, hjne⟩ := mem_kneighborsIndSelf hj
    intro h0
    have heq : Xtr.getD j [] = Xtr.getD i [] := by
      apply eq_of_sqdist_zero
      · rw [hlen _ (getD_mem hjlt []), hlen _ (getD_mem hi [])]
      · exact h0
    exact getD_ne_of_nodup hnd hjlt hi hjne [] heq
  have hdlen : 2 ≤ (FastABOD.diffsOf Xtr (Xtr.getD i [])
      (kneighborsIndSelf Xtr i k)).length := by
    unfold FastABOD.diffsOf
    rw [List.length_map, kneighborsIndSelf_length Xtr i k hi]
    omega
  have hnonempty := pairsOf_ne_nil hdlen
  have hne : ¬ FastABOD.rowBad Xtr (Xtr.getD i [], kneighborsIndSelf Xtr i k) = true := by
    rw [rowBad_eq_true_iff]
    rintro (hemp | ⟨ab, hab, hz⟩)
    · exact hnonempty hemp
    · have hmem := pairsOf_mem hab
      rcases hz with hz | hz
      · exact key ab.1 hmem.1 hz
      · exact key ab.2 hmem.2 hz
  exact Bool.eq_false_iff.mpr hne

theorem mem_kneighborsSelfDist {m : Vec → Vec → ℚ} {Xtr : Mat} {i k : ℕ} {v : ℚ}
    (h : v ∈ KNN.kneighborsSelfDist m Xtr i k) :
    ∃ j, j < Xtr.length ∧ j ≠ i ∧ v = m (Xtr.getD i []) (Xtr.getD j []) := by
  unfold KNN.kneighborsSelfDist at h
  have h2 := List.take_subset _ _ h
  have h3 : v ∈ ((List.range Xtr.length).filter (fun j => j != i)).map
      (fun j => m (Xtr.getD i []) (Xtr.getD j [])) :=
    (List.perm_insertionSort (· ≤ ·) _).mem_iff.mp h2
  obtain ⟨j0, hj0, hje⟩ := List.mem_map.mp h3
  have hj1 := List.mem_filter.mp hj0
  exact ⟨j0, List.mem_range.mp hj1.1, by simpa using hj1.2, hje.symm⟩

theorem kneighborsSelfDist_ne_nil {m : Vec → Vec → ℚ} {Xtr : Mat} {i k : ℕ}
    (hk : 1 ≤ k) (hn : 2 ≤ Xtr.length) :
    KNN.kneighborsSelfDist m Xtr i k ≠ [] := by
  unfold KNN.kneighborsSelfDist
  intro hcon
  rcases List.take_eq_nil_iff.mp hcon with h | h
  · omega
  · have hmapnil : ((List.range Xtr.length).filter (fun j => j != i)).map
        (fun j => m (Xtr.getD i []) (Xtr.getD j [])) = [] := by
      have hp := List.perm_insertionSort (· ≤ ·)
        (((List.range Xtr.length).filter (fun j => j != i)).map
          (fun j => m (Xtr.getD i []) (Xtr.getD j [])))
      rw [h] at hp
      exact hp.symm.eq_nil
    have hfilnil := List.map_eq_nil_iff.mp hmapnil
    have hj : (if i = 0 then 1 else 0) ∈ (List.range Xtr.length).filter (fun j => j != i) := by
      apply List.mem_filter.mpr
      constructor
      · apply List.mem_range.mpr
        by_cases hi : i = 0 <;> simp [hi] <;> omega
      · by_cases hi : i = 0 <;> simp [hi]
        omega
    rw [hfilnil] at hj
    cases hj

/-! ### Claims -/

/-- C3: for every fitted FastABOD and every query row `p` of `X` with
k-nearest-neighbor index set `ind_p`, the returned anomaly score for `p` is
the negative of the variance, over all distinct unordered pairs `(a, b)` of
difference vectors `X_train[i] - p` for `i` in `ind_p`, of the ratio
`(a·b) / (a·a) / (b·b)`. -/
theorem fastabod_score_eq_neg_pair_variance (cfg : FastABOD.Cfg) (Xtr X : Mat)
    (s : List ℚ) (hj : 1 ≤ cfg.n_jobs)
    (h : FastABOD.anomaly_scoreE cfg (some Xtr) (some X) = .ok s)
    (j : ℕ) (hjlt : j < X.length) :
    s.getD j 0 = -(popVar (FastABOD.abofRatios Xtr (X.getD j [])
      (kneighborsInd Xtr (X.getD j []) cfg.n_neighbors))) := by
  rw [abod_direct cfg Xtr (some X) hj] at h
  by_cases hb : (FastABOD.abodRows Xtr cfg.n_neighbors (some X)).any (FastABOD.rowBad Xtr)
  · rw [if_pos hb] at h
    simp at h
  · rw [if_neg hb] at h
    have h2 : (FastABOD.abodRows Xtr cfg.n_neighbors (some X)).map
        (fun r => -(FastABOD.abofRow Xtr r)) = s := by
      injection h
    subst h2
    have hlen1 : ((FastABOD.abodRows Xtr cfg.n_neighbors (some X)).map
        (fun r => -(FastABOD.abofRow Xtr r))).length = X.length := by
      simp [FastABOD.abodRows]
    rw [List.getD_eq_getElem _ _ (by rw [hlen1]; exact hjlt), List.getElem_map]
    simp only [FastABOD.abodRows, FastABOD.abofRow, List.getElem_map,
      List.getD_eq_getElem _ _ hjlt]

/-- C3 witness: a concrete fitted engine and query evaluating the score
formula. -/
theorem fastabod_score_eq_neg_pair_variance_witness :
    ([(0 : ℚ)] : List ℚ).getD 0 0 =
      -(popVar (FastABOD.abofRatios [[0], [1], [3]] (([[5]] : Mat).getD 0 [])
        (kneighborsInd [[0], [1], [3]] (([[5]] : Mat).getD 0 []) 2))) :=
  fastabod_score_eq_neg_pair_variance ⟨1/10, 1, 2⟩ [[0], [1], [3]] [[5]] [0]
    (by decide) (by decide) 0 (by decide)

/-- C4: for a fitted FastABOD the anomaly-score vector — computed by
slicing the query rows into contiguous near-equal parts, scoring each part
independently, and concatenating in original row order — is identical for
every parallelism degree of at least 1 (in particular for every degree from
1 up to the number of rows). -/
theorem fastabod_parallel_degree_invariant (fpr : ℚ) (k j1 j2 : ℕ) (Xtr : Mat)
    (X : Option Mat) (h1 : 1 ≤ j1) (h2 : 1 ≤ j2) :
    FastABOD.anomaly_scoreE ⟨fpr, j1, k⟩ (some Xtr) X =
      FastABOD.anomaly_scoreE ⟨fpr, j2, k⟩ (some Xtr) X := by
  rw [abod_direct _ _ _ h1, abod_direct _ _ _ h2]

/-- C4 witness: degrees 1 and 2 on a concrete query set agree. -/
theorem fastabod_parallel_degree_invariant_witness :
    FastABOD.anomaly_scoreE ⟨1/100, 1, 2⟩ (some [[0], [1], [3]]) (some [[5], [7]]) =
      FastABOD.anomaly_scoreE ⟨1/100, 2, 2⟩ (some [[0], [1], [3]]) (some [[5], [7]]) :=
  fastabod_parallel_degree_invariant (1/100) 2 1 2 [[0], [1], [3]] (some [[5], [7]])
    (by decide) (by decide)

/-- C5 counterexample: with `n_neighbors = 1` each query row has a single
difference vector and no pairs, so under `np.errstate(invalid='raise')`
`np.var`'s empty-axis mean is 0 / 0 and the program raises
`ValueError('X must not contain training samples')` although no pairwise
ratio divides by a zero-norm difference vector — the query point `[5]` does
not even coincide with any training point. -/
theorem fastabod_domain_error_without_zero_pair :
    FastABOD.anomaly_scoreE ⟨1/10, 1, 1⟩ (some [[0], [1], [3]]) (some [[5]]) =
      .error (.valueError "X must not contain training samples") ∧
    ¬ ∃ p ∈ ([[5]] : Mat), ∃ ab ∈ pairsOf (FastABOD.diffsOf [[0], [1], [3]] p
        (kneighborsInd [[0], [1], [3]] p 1)),
      dot ab.1 ab.1 = 0 ∨ dot ab.2 ab.2 = 0 := by
  decide

/-- C5 amended: `FastABOD.anomaly_score(X)` raises
`ValueError('X must not contain training samples')` — distinct from generic
errors — exactly when some query row's pairwise computation hits an invalid
operation: either the row's pair list is empty (fewer than two selected
neighbors, so `np.var`'s empty-axis mean is 0 / 0), or some pairwise ratio
divides by the zero squared norm of a zero difference vector (the query row
coincides with one of its selected neighbors). -/
theorem fastabod_domain_error_iff_invalid_op (cfg : FastABOD.Cfg) (Xtr X : Mat)
    (hj : 1 ≤ cfg.n_jobs) :
    FastABOD.anomaly_scoreE cfg (some Xtr) (some X) =
        .error (.valueError "X must not contain training samples") ↔
      ∃ p ∈ X, pairsOf (FastABOD.diffsOf Xtr p
          (kneighborsInd Xtr p cfg.n_neighbors)) = [] ∨
        ∃ ab ∈ pairsOf (FastABOD.diffsOf Xtr p
          (kneighborsInd Xtr p cfg.n_neighbors)),
          dot ab.1 ab.1 = 0 ∨ dot ab.2 ab.2 = 0 := by
  rw [abod_direct _ _ _ hj]
  by_cases hb : (FastABOD.abodRows Xtr cfg.n_neighbors (some X)).any (FastABOD.rowBad Xtr)
  · rw [if_pos hb]
    refine iff_of_true rfl ?_
    obtain ⟨r, hr, hrb⟩ := List.any_eq_true.mp hb
    simp only [FastABOD.abodRows] at hr
    obtain ⟨p, hp, rfl⟩ := List.mem_map.mp hr
    exact ⟨p, hp, (rowBad_eq_true_iff Xtr _).mp hrb⟩
  · rw [if_neg hb]
    refine iff_of_false (by simp) ?_
    rintro ⟨p, hp, hcond⟩
    apply hb
    refine List.any_eq_true.mpr ⟨(p, kneighborsInd Xtr p cfg.n_neighbors), ?_, ?_⟩
    · simp only [FastABOD.abodRows]
      exact List.mem_map_of_mem _ hp
    · exact (rowBad_eq_true_iff Xtr _).mpr hcond

/-- C5 amended witness: querying with a training point raises the domain
error through the zero-norm case of the disjunction. -/
theorem fastabod_domain_error_iff_invalid_op_witness :
    FastABOD.anomaly_scoreE ⟨1/10, 1, 2⟩ (some [[0], [1], [3]]) (some [[0]]) =
      .error (.valueError "X must not contain training samples") :=
  (fastabod_domain_error_iff_invalid_op ⟨1/10, 1, 2⟩ [[0], [1], [3]] [[0]]
    (by decide)).mpr (by decide)

/-- C8: for each engine type (KNN, FastABOD, OneTimeSampling), calling
`anomaly_score` or `predict` before a successful `fit` fails with the
not-fitted condition, which is distinguishable from every other error. -/
theorem scoring_before_fit_raises_notfitted (m : Vec → Vec → ℚ) (k : ℕ)
    (w : Bool) (X : Mat) (Xq : Option Mat) (cfg : FastABOD.Cfg) :
    KNN.anomaly_scoreE m k w none X = .error .notFitted ∧
    KNN.predictE m k w none X = .error .notFitted ∧
    FastABOD.anomaly_scoreE cfg none Xq = .error .notFitted ∧
    FastABOD.predictE cfg none Xq = .error .notFitted ∧
    OTS.anomaly_scoreE m OTS.empty X = .error .notFitted ∧
    OTS.predictE m OTS.empty X = .error .notFitted ∧
    (∀ msg, KError.notFitted ≠ KError.valueError msg) ∧
    KError.notFitted ≠ KError.notImplemented :=
  ⟨rfl, rfl, rfl, rfl, rfl, rfl, fun msg => by simp, by simp⟩

/-- C9: the body of `FastABOD.score` unconditionally fails with the
not-implemented condition, for every engine state and argument values, and
that condition is distinct from the not-fitted one.  (The Python `def`
omits `self`, so a bound call passing both documented arguments `X` and
`y` fails with `TypeError` before this body runs.) -/
theorem fastabod_score_not_implemented (st : Option (Mat × ℚ)) (X : Mat)
    (y : Option (List ℚ)) :
    FastABOD.scoreE st X y = .error .notImplemented ∧
    KError.notImplemented ≠ KError.notFitted :=
  ⟨rfl, by simp⟩

/-- C10 counterexample: with `n_neighbors = 1` the fit path raises the
domain `ValueError` even on a training set with pairwise-distinct rows —
each row has a single self-excluded neighbor, its pair list is empty, and
`np.var`'s empty-axis mean is 0 / 0 under `np.errstate(invalid='raise')`.
So the claimed "never raises" is false as stated. -/
theorem fastabod_fit_path_error_one_neighbor :
    ([[0], [1], [3]] : Mat).Nodup ∧
    FastABOD.anomaly_scoreE ⟨1/100, 1, 1⟩ (some [[0], [1], [3]]) none =
      .error (.valueError "X must not contain training samples") := by
  decide

/-- C10 amended: on a training set with pairwise-distinct rows of equal
dimension, and with at least two neighbors configured (and at most `n - 1`,
as the self-excluding neighbor query requires), the scoring path `fit`
itself uses (`X` omitted, so neighbor indices come from the self-excluding
query before `X` defaults to the stored training data) never raises the
domain error: no difference vector pairs a point with itself and every row
has at least one ratio pair. -/
theorem fastabod_fit_path_no_domain_error_two_neighbors (cfg : FastABOD.Cfg)
    (Xtr : Mat) (d : ℕ) (hj : 1 ≤ cfg.n_jobs) (hnd : Xtr.Nodup)
    (hlen : ∀ r ∈ Xtr, r.length = d) (hk2 : 2 ≤ cfg.n_neighbors)
    (hkn : cfg.n_neighbors ≤ Xtr.length - 1) :
    ∃ s, FastABOD.anomaly_scoreE cfg (some Xtr) none = .ok s := by
  rw [abod_direct _ _ _ hj]
  have hb : (FastABOD.abodRows Xtr cfg.n_neighbors none).any (FastABOD.rowBad Xtr)
      = false := by
    rw [List.any_eq_false]
    intro r hr
    simp only [FastABOD.abodRows] at hr
    obtain ⟨i, hi, rfl⟩ := List.mem_map.mp hr
    have hilt : i < Xtr.length := List.mem_range.mp hi
    simp only [Bool.not_eq_true]
    exact rowBad_self_false hnd hlen hilt hk2 hkn
  rw [if_neg (by simp [hb])]
  exact ⟨_, rfl⟩

/-- C10 amended witness: a concrete distinct-row training set with
`n_neighbors = 2` scores without the domain error on the fit path. -/
theorem fastabod_fit_path_no_domain_error_two_neighbors_witness :
    ∃ s, FastABOD.anomaly_scoreE ⟨1/100, 1, 2⟩ (some [[0], [1], [3]]) none = .ok s :=
  fastabod_fit_path_no_domain_error_two_neighbors ⟨1/100, 1, 2⟩ [[0], [1], [3]] 1
    (by decide) (by decide) (by decide) (by decide) (by decide)

/-- C1: every scoring engine's `fit` sets `threshold_` to the
linear-interpolation percentile of the training-set anomaly scores at
`100 * (1 - rate)` (the rate is `fpr` for FastABOD and `contamination` for
the other engines, whose base-class fit is modelled from the spec), and in
particular for scores `S = [1..100]` and rate `0.1` that percentile is the
interpolated value `90.1`. -/
theorem fit_sets_threshold_to_percentile :
    (∀ (cfg : FastABOD.Cfg) (X : Mat) (st : Mat × ℚ), FastABOD.fitE cfg X = .ok st →
      ∃ s, FastABOD.anomaly_scoreE cfg (some X) none = .ok s ∧
        st.2 = percentile s (100 * (1 - cfg.fpr))) ∧
    (∀ (m : Vec → Vec → ℚ) (k : ℕ) (w : Bool) (c : ℚ) (X : Mat) (st : Mat × ℚ),
      KNN.fitE m k w c X = .ok st →
      ∃ s, KNN.anomaly_scoreE m k w (some X) X = .ok s ∧
        st.2 = percentile s (100 * (1 - c))) ∧
    (∀ (cfg : OTS.Cfg) (m : Vec → Vec → ℚ) (rng : ℕ → ℤ → List ℕ)
      (st0 : OTS.State) (X : Mat),
      (OTS.fitRun cfg m rng st0 X).2 = .ok () →
      ∃ smp, (OTS.fitRun cfg m rng st0 X).1.sampled_ = some smp ∧
        (OTS.fitRun cfg m rng st0 X).1.threshold_ =
          some (percentile (OTS.trainScores m X smp) (100 * (1 - cfg.contamination)))) ∧
    percentile ((List.range 100).map (fun i => (i : ℚ) + 1)) (100 * (1 - 1/10))
      = 901/10 := by
  refine ⟨?_, ?_, ?_, by decide⟩
  · intro cfg X st h
    unfold FastABOD.fitE at h
    cases hE : FastABOD.anomaly_scoreE cfg (some X) none with
    | error e => rw [hE] at h; simp at h
    | ok s =>
      rw [hE] at h
      have h2 : (X, percentile s (100 * (1 - cfg.fpr))) = st := by injection h
      exact ⟨s, rfl, by rw [← h2]⟩
  · intro m k w c X st h
    unfold KNN.fitE at h
    cases hE : KNN.anomaly_scoreE m k w (some X) X with
    | error e => rw [hE] at h; simp at h
    | ok s =>
      rw [hE] at h
      have h2 : (X, percentile s (100 * (1 - c))) = st := by injection h
      exact ⟨s, rfl, by rw [← h2]⟩
  · intro cfg m rng st0 X h
    unfold OTS.fitRun at h ⊢
    split_ifs at h ⊢ with h1 h2 h3
    exact ⟨(rng X.length cfg.n_samples).insertionSort (fun x1 x2 => x1 ≤ x2), rfl, rfl⟩

/-- C1 witness: a concrete FastABOD fit whose threshold is the percentile of
its training scores. -/
theorem fit_sets_threshold_to_percentile_witness :
    ∃ s, FastABOD.anomaly_scoreE ⟨1/10, 1, 2⟩ (some [[0], [1], [3]]) none = .ok s ∧
      ((([[0], [1], [3]] : Mat), (0 : ℚ)).2 =
        percentile s (100 * (1 - (⟨1/10, 1, 2⟩ : FastABOD.Cfg).fpr))) :=
  fit_sets_threshold_to_percentile.1 ⟨1/10, 1, 2⟩ [[0], [1], [3]]
    ([[0], [1], [3]], 0) (by decide)

/-- C2: for a fitted KNN detector scored on its own training set (the
`np.array_equal` branch), each row's k nearest neighbors exclude the row
itself; consequently, for a proper metric and pairwise-distinct training
rows every reported neighbor distance — and hence every reported score — is
strictly positive, never 0 through a self-match; and each row's score is
the sum of its k neighbor distances when `weight` is true, otherwise their
maximum. -/
theorem knn_training_scores_exclude_self (m : Vec → Vec → ℚ) (k : ℕ) (w : Bool)
    (Xtr : Mat) (hm0 : ∀ x y, 0 ≤ m x y)
    (hm1 : ∀ x ∈ Xtr, ∀ y ∈ Xtr, (m x y = 0 ↔ x = y))
    (hnd : Xtr.Nodup) (hn : 2 ≤ Xtr.length) (hk : 1 ≤ k) :
    KNN.anomaly_scoreE m k w (some Xtr) Xtr =
      .ok ((List.range Xtr.length).map (fun i =>
        if w then listSum (KNN.kneighborsSelfDist m Xtr i k)
        else listMax (KNN.kneighborsSelfDist m Xtr i k))) ∧
    (∀ i, i < Xtr.length → ∀ v ∈ KNN.kneighborsSelfDist m Xtr i k, 0 < v) ∧
    (∀ s, KNN.anomaly_scoreE m k w (some Xtr) Xtr = .ok s → ∀ v ∈ s, 0 < v) := by
  have hpos : ∀ i, i < Xtr.length → ∀ v ∈ KNN.kneighborsSelfDist m Xtr i k, 0 < v := by
    intro i hi v hv
    obtain ⟨j, hjlt, hjne, rfl⟩ := mem_kneighborsSelfDist hv
    have hxj : Xtr.getD j [] ∈ Xtr := getD_mem hjlt []
    have hxi : Xtr.getD i [] ∈ Xtr := getD_mem hi []
    rcases lt_or_eq_of_le (hm0 (Xtr.getD i []) (Xtr.getD j [])) with hlt | heq0
    · exact hlt
    · exfalso
      have := (hm1 _ hxi _ hxj).mp heq0.symm
      exact getD_ne_of_nodup hnd hi hjlt (fun hij => hjne hij.symm) [] this
  have hshape : KNN.anomaly_scoreE m k w (some Xtr) Xtr =
      .ok ((List.range Xtr.length).map (fun i =>
        if w then listSum (KNN.kneighborsSelfDist m Xtr i k)
        else listMax (KNN.kneighborsSelfDist m Xtr i k))) := by
    simp only [KNN.anomaly_scoreE]
    rw [if_pos trivial, map_map_fun]
  refine ⟨hshape, hpos, ?_⟩
  intro s hs v hv
  rw [hshape] at hs
  have h2 : (List.range Xtr.length).map (fun i =>
      if w then listSum (KNN.kneighborsSelfDist m Xtr i k)
      else listMax (KNN.kneighborsSelfDist m Xtr i k)) = s := by injection hs
  subst h2
  obtain ⟨i, hi, rfl⟩ := List.mem_map.mp hv
  have hilt : i < Xtr.length := List.mem_range.mp hi
  have hne := @kneighborsSelfDist_ne_nil m Xtr i k hk hn
  cases w with
  | true => simpa using listSum_pos hne (hpos i hilt)
  | false => simpa using listMax_pos hne (hpos i hilt)

/-- C2 witness: a concrete fitted KNN on distinct rows with the squared
euclidean metric. -/
theorem knn_training_scores_exclude_self_witness :
    KNN.anomaly_scoreE sqdist 2 false (some [[0], [2], [5]]) [[0], [2], [5]] =
      .ok ((List.range ([[0], [2], [5]] : Mat).length).map (fun i =>
        if false then listSum (KNN.kneighborsSelfDist sqdist [[0], [2], [5]] i 2)
        else listMax (KNN.kneighborsSelfDist sqdist [[0], [2], [5]] i 2))) ∧
    (∀ i, i < ([[0], [2], [5]] : Mat).length →
      ∀ v ∈ KNN.kneighborsSelfDist sqdist [[0], [2], [5]] i 2, 0 < v) ∧
    (∀ s, KNN.anomaly_scoreE sqdist 2 false (some [[0], [2], [5]]) [[0], [2], [5]]
      = .ok s → ∀ v ∈ s, 0 < v) :=
  knn_training_scores_exclude_self sqdist 2 false [[0], [2], [5]]
    (fun x y => sqdist_nonneg x y) (by decide) (by decide) (by decide) (by decide)

/-- C6: with a valid contamination rate, `OneTimeSampling.fit` succeeds
exactly when `0 < n_samples < n` (n the number of reference rows): a
non-positive `n_samples` is rejected by `_check_params` and
`n_samples >= n` is rejected by `_fit`; in particular `n = 50`,
`n_samples = 50` is rejected with the descriptive bound 50 in the message. -/
theorem ots_fit_validates_sample_bounds (cfg : OTS.Cfg) (m : Vec → Vec → ℚ)
    (rng : ℕ → ℤ → List ℕ) (st : OTS.State) (X : Mat)
    (hc : 0 ≤ cfg.contamination ∧ cfg.contamination ≤ 1) :
    ((OTS.fitRun cfg m rng st X).2 = .ok () ↔
      0 < cfg.n_samples ∧ cfg.n_samples < (X.length : ℤ)) ∧
    (OTS.fitRun ⟨cfg.contamination, 50⟩ m rng st (List.replicate 50 [0])).2 =
      .error (.valueError "n_samples must be smaller than 50 but was 50") := by
  constructor
  · unfold OTS.fitRun
    split_ifs with h1 h2 h3
    · exfalso
      rcases h1 with h1 | h1 <;> [linarith [hc.1]; linarith [hc.2]]
    · refine iff_of_false (by simp) ?_
      rintro ⟨hp, _⟩
      omega
    · refine iff_of_false (by simp) ?_
      rintro ⟨_, hlt⟩
      omega
    · exact iff_of_true rfl ⟨by omega, by omega⟩
  · unfold OTS.fitRun
    split_ifs with h1 h2 h3
    · exfalso
      rcases h1 with h1 | h1 <;> [linarith [hc.1]; linarith [hc.2]]
    · exfalso
      have h50 : ((⟨cfg.contamination, 50⟩ : OTS.Cfg)).n_samples = 50 := rfl
      rw [h50] at h2
      omega
    · rfl
    · exfalso
      apply h3
      simp

/-- C6 witness: a concrete in-bounds fit satisfying the iff, with the
concrete 50-row rejection. -/
theorem ots_fit_validates_sample_bounds_witness :
    (((OTS.fitRun ⟨1/100, 1⟩ sqdist (fun _ _ => [0]) OTS.empty [[0], [4]]).2 = .ok ()) ↔
      (0 < (⟨1/100, 1⟩ : OTS.Cfg).n_samples ∧
        (⟨1/100, 1⟩ : OTS.Cfg).n_samples < (([[0], [4]] : Mat).length : ℤ))) ∧
    (OTS.fitRun ⟨(⟨1/100, 1⟩ : OTS.Cfg).contamination, 50⟩ sqdist (fun _ _ => [0])
        OTS.empty (List.replicate 50 [0])).2 =
      .error (.valueError "n_samples must be smaller than 50 but was 50") :=
  ots_fit_validates_sample_bounds ⟨1/100, 1⟩ sqdist (fun _ _ => [0]) OTS.empty
    [[0], [4]] (by decide)

/-- C7 counterexample: `OneTimeSampling._fit` assigns `self.X_ = X` before
the `n_samples >= n` check, so a failing fit leaves the training data
assigned on the engine — the engine state is mutated although the
operation reported an error. -/
theorem ots_failed_fit_keeps_training_data :
    ((OTS.fitRun ⟨1/100, 1⟩ sqdist (fun _ _ => []) OTS.empty [[0]]).2 =
      .error (.valueError "n_samples must be smaller than 1 but was 1")) ∧
    (OTS.fitRun ⟨1/100, 1⟩ sqdist (fun _ _ => []) OTS.empty [[0]]).1.X_ = some [[0]] ∧
    OTS.empty.X_ = none := by
  decide

/-- C7 amended: when `OneTimeSampling.fit` reports an error, the sample
indices, metric object and threshold are left unassigned (unchanged), but
the engine state as a whole is not necessarily unchanged: on the
`n_samples >= n` failure the training data attribute has already been
assigned. -/
theorem ots_fit_error_assigns_no_sample_or_metric (cfg : OTS.Cfg)
    (m : Vec → Vec → ℚ) (rng : ℕ → ℤ → List ℕ) (st : OTS.State) (X : Mat)
    (e : KError) (h : (OTS.fitRun cfg m rng st X).2 = .error e) :
    (OTS.fitRun cfg m rng st X).1.sampled_ = st.sampled_ ∧
    (OTS.fitRun cfg m rng st X).1.metric_ = st.metric_ ∧
    (OTS.fitRun cfg m rng st X).1.threshold_ = st.threshold_ ∧
    ((OTS.fitRun cfg m rng st X).1 = st ∨
      (OTS.fitRun cfg m rng st X).1 = { st with X_ := some X }) := by
  unfold OTS.fitRun at h ⊢
  split_ifs at h ⊢ with h1 h2 h3
  · exact ⟨rfl, rfl, rfl, .inl rfl⟩
  · exact ⟨rfl, rfl, rfl, .inl rfl⟩
  · exact ⟨rfl, rfl, rfl, .inr rfl⟩

/-- C7 amended witness: the concrete failing fit of the counterexample
leaves sample, metric and threshold unassigned. -/
theorem ots_fit_error_assigns_no_sample_or_metric_witness :
    (OTS.fitRun ⟨1/100, 1⟩ sqdist (fun _ _ => []) OTS.empty [[0]]).1.sampled_ =
      OTS.empty.sampled_ ∧
    (OTS.fitRun ⟨1/100, 1⟩ sqdist (fun _ _ => []) OTS.empty [[0]]).1.metric_ =
      OTS.empty.metric_ ∧
    (OTS.fitRun ⟨1/100, 1⟩ sqdist (fun _ _ => []) OTS.empty [[0]]).1.threshold_ =
      OTS.empty.threshold_ ∧
    ((OTS.fitRun ⟨1/100, 1⟩ sqdist (fun _ _ => []) OTS.empty [[0]]).1 = OTS.empty ∨
      (OTS.fitRun ⟨1/100, 1⟩ sqdist (fun _ _ => []) OTS.empty [[0]]).1 =
        { OTS.empty with X_ := some [[0]] }) :=
  ots_fit_error_assigns_no_sample_or_metric ⟨1/100, 1⟩ sqdist (fun _ _ => [])
    OTS.empty [[0]] (.valueError "n_samples must be smaller than 1 but was 1")
    (by decide)

end Kenchi


